import Mathlib

/-
Shallow embedding of the WebCrawler core of the Webscraper repository
(src/crawler.py), together with proofs of the specified properties.

Python strings are modelled as Lean `String`, Python sets of strings as
`Finset String`, the insertion-ordered dict `scraped_content` as an
association list `List (String × String)`, and the FIFO `deque` as a
`List String` (popleft = head, append = concatenation at the right).
The external collaborators (Playwright fetch, BeautifulSoup parsing) are
modelled as an explicit `World`: `fetch` gives the result of
`scrape_single_page` (`none` when the awaited scrape raised, otherwise
the returned markup — `scrape_website_playwright` returns `""` on a
navigation failure), and `hrefs` gives, for a markup string, the list of
href attributes of its anchor elements in document order
(`soup.find_all("a", href=True)`).
-/

namespace Webscraper

/-- Characters Python's `urllib.parse` accepts inside a URL scheme. -/
def isSchemeChar (c : Char) : Bool :=
  c.isAlphanum || c == '+' || c == '-' || c == '.'

/-- Models the scheme detection of `urllib.parse.urlparse`: the part before the
first `:` is a scheme when it is nonempty, starts with a letter and consists of
scheme characters; returns (scheme, remainder after the colon). -/
def splitScheme (cs : List Char) : Option (List Char × List Char) :=
  let pre := cs.takeWhile (fun c => c != ':')
  if pre.length < cs.length && !pre.isEmpty && (pre.headD ' ').isAlpha &&
      pre.all isSchemeChar then
    some (pre, cs.drop (pre.length + 1))
  else
    none

/-- Part of `cs` after the scheme and colon, or all of `cs` when no scheme. -/
def dropScheme (cs : List Char) : List Char :=
  ((splitScheme cs).map Prod.snd).getD cs

/-- WebCrawler.get_domain (src/crawler.py:87-89): `urlparse(url).netloc`.
The netloc is present exactly when the input (after any scheme and colon)
starts with `//`; it extends to the next `/`, `?` or `#`. -/
def get_domain (url : String) : String :=
  match dropScheme url.toList with
  | '/' :: '/' :: t => ⟨t.takeWhile (fun c => c != '/' && c != '?' && c != '#')⟩
  | _ => ""

/-- Python `str.lower()` (the URLs involved are ASCII). -/
def strLower (s : String) : String := ⟨s.toList.map Char.toLower⟩

/-- Python `str.startswith`. -/
def strStartsWith (s pre : String) : Bool :=
  pre.toList.isPrefixOf s.toList

/-- Python `str.endswith`. -/
def strEndsWith (s suffixStr : String) : Bool :=
  suffixStr.toList.isSuffixOf s.toList

/-- Python's `in` on strings: `pat` occurs as a contiguous substring. -/
def hasSubChars (pat : List Char) : List Char → Bool
  | [] => pat.isEmpty
  | c :: t => pat.isPrefixOf (c :: t) || hasSubChars pat t

/-- Python `pat in s` for strings. -/
def hasSubstr (s pat : String) : Bool := hasSubChars pat.toList s.toList

/-- EXCLUDED_EXTENSIONS (src/crawler.py:18-51). -/
def EXCLUDED_EXTENSIONS : List String :=
  [".pdf", ".doc", ".docx", ".xls", ".xlsx", ".ppt", ".pptx", ".zip", ".rar",
   ".tar", ".gz", ".exe", ".dmg", ".pkg", ".jpg", ".jpeg", ".png", ".gif",
   ".bmp", ".svg", ".ico", ".mp3", ".mp4", ".avi", ".mov", ".wmv", ".flv",
   ".webm", ".css", ".js", ".xml", ".json"]

/-- EXCLUDED_URL_KEYWORDS (src/crawler.py:53-71). -/
def EXCLUDED_URL_KEYWORDS : List String :=
  ["logout", "login", "signin", "signup", "register", "admin", "dashboard",
   "profile", "settings", "cart", "checkout", "payment", "billing",
   "download", "upload", "api", "feed"]

/-- WebCrawler.is_valid_url (src/crawler.py:91-111). `same_domain_only` is the
`self.same_domain_only` attribute read by the method. -/
def is_valid_url (same_domain_only : Bool) (url base_domain : String) : Bool :=
  if url == "" || strStartsWith url "#" || strStartsWith url "mailto:" ||
      strStartsWith url "tel:" then
    false
  else
    let url_lower := strLower url
    if EXCLUDED_EXTENSIONS.any (fun ext => strEndsWith url_lower ext) then
      false
    else if EXCLUDED_URL_KEYWORDS.any (fun kw => hasSubstr url_lower kw) then
      false
    else if same_domain_only then
      get_domain url == base_domain
    else
      true

/-- Everything of `s` up to (excluding) the first `#`. -/
def stripFragment (s : String) : String :=
  ⟨s.toList.takeWhile (fun c => c != '#')⟩

/-- Longest prefix of `cs` ending in `'/'`, or `none` when `cs` has no slash. -/
def cutLastSlash : List Char → Option (List Char)
  | [] => none
  | c :: t =>
    match cutLastSlash t with
    | some r => some (c :: r)
    | none => if c = '/' then some [c] else none

/-- The `scheme://host` part of an absolute URL (empty when `base` has no
scheme or no netloc). -/
def baseRoot (base : String) : String :=
  match splitScheme base.toList with
  | some (sc, '/' :: '/' :: t) =>
    (⟨sc⟩ : String) ++ "://" ++
      (⟨t.takeWhile (fun c => c != '/' && c != '?' && c != '#')⟩ : String)
  | _ => ""

/-- The path of `base` (text after `scheme://host`, before query/fragment). -/
def basePath (base : String) : String :=
  match splitScheme base.toList with
  | some (_, '/' :: '/' :: t) =>
    ⟨(t.dropWhile (fun c => c != '/' && c != '?' && c != '#')).takeWhile
      (fun c => c != '?' && c != '#')⟩
  | _ => ⟨(stripFragment base).toList.takeWhile (fun c => c != '?')⟩

/-- Models `urllib.parse.urljoin(base, url)` for the URL shapes the crawler
meets: an href that itself carries a scheme is returned unchanged,
protocol-relative hrefs take the base's scheme, rooted hrefs replace the
base's path, fragment hrefs replace the base's fragment, and relative hrefs
resolve against the directory of the base's path.  The theorems below only
ever evaluate this function on hrefs that carry a scheme. -/
def urljoin (base url : String) : String :=
  if url == "" then base
  else if (splitScheme url.toList).isSome then url
  else if strStartsWith url "//" then
    (match splitScheme base.toList with
     | some (sc, _) => (⟨sc⟩ : String) ++ ":" ++ url
     | none => url)
  else if strStartsWith url "#" then stripFragment base ++ url
  else if strStartsWith url "/" then baseRoot base ++ url
  else
    match cutLastSlash (basePath base).toList with
    | some dir => baseRoot base ++ (⟨dir⟩ : String) ++ url
    | none => baseRoot base ++ "/" ++ url

/-- Appends `u` to `acc` unless already present (insertion into an
insertion-ordered set). -/
def dedupAppend (acc : List String) (u : String) : List String :=
  if u ∈ acc then acc else acc ++ [u]

/-- The distinct elements of `l` in order of first occurrence.  Python's
`list(set(...))` iterates the set in an unspecified order; the model fixes
the order of first insertion. -/
def insertionDedup (l : List String) : List String :=
  l.foldl dedupAppend []

/-- WebCrawler.extract_links (src/crawler.py:113-126): each href of an anchor
element is resolved against `base_url`, kept when `is_valid_url` accepts it
for `base_domain = get_domain base_url`, and collected into a set; `hrefs` is
the document-order list of anchor href attributes of the parsed markup. -/
def extract_links (same_domain_only : Bool) (hrefs : List String)
    (base_url : String) : List String :=
  insertionDedup ((hrefs.map (fun href => urljoin base_url href)).filter
    (fun u => is_valid_url same_domain_only u (get_domain base_url)))

/-- Modelled from the spec: the link extractor of spec §4.2, which claims to
return the deduplicated set of resolved absolute URLs with no filtering
applied inside extraction.  Stated only to compare with `extract_links`,
which is translated from the source. -/
def extract_links_spec (hrefs : List String) (base_url : String) : List String :=
  insertionDedup (hrefs.map (fun href => urljoin base_url href))

/-- The crawler's environment: `fetch u` is the result of
`scrape_single_page u` (src/crawler.py:128-136) — `none` when the awaited
scrape raised an exception, otherwise the markup string returned by
`scrape_website_playwright`, which is `""` when the page navigation failed
(src/scrape_playwright.py:17-36); `hrefs m` is the document-order list of
anchor href attributes BeautifulSoup finds in the markup `m`. -/
structure World where
  fetch : String → Option String
  hrefs : String → List String

/-- The configuration attributes stored by `WebCrawler.__init__`
(src/crawler.py:75-85).  Python defaults: `max_pages=10`, `delay=2`,
`same_domain_only=True`. -/
structure WebCrawler where
  max_pages : Int
  delay : Int
  same_domain_only : Bool
  deriving DecidableEq

/-- WebCrawler.__init__ (src/crawler.py:75-85): the constructor stores the
given configuration unchanged; it performs no validation of `max_pages`. -/
def WebCrawler.init (max_pages delay : Int) (same_domain_only : Bool) :
    WebCrawler :=
  { max_pages := max_pages, delay := delay,
    same_domain_only := same_domain_only }

/-- The data assembled by `update_progress` (src/crawler.py:138-153) and
handed to the progress callback.  `progress_percentage` is a float derived
from `visited_count` and `max_pages` and is omitted from the model. -/
structure ProgressEvent where
  message : String
  current_url : Option String
  visited_count : Nat
  queue_size : Nat
  total_links_found : Nat
  links_on_current_page : Nat
  max_pages : Int
  deriving DecidableEq

/-- The mutable state of one crawl session, plus observation traces.
`visited_urls`, `scraped_content`, `url_queue` and `found_links` are the
attributes of the same names (src/crawler.py:81-84).  The remaining fields
record observable actions of the run and are write-only ghosts:
`discovered_order` records the arguments of `found_links.add` calls in
order, `popped` the results of `url_queue.popleft()` in order, `events`
the `update_progress` calls in order, and `sleeps` the page after which an
`asyncio.sleep(self.delay)` pacing delay happened, in order. -/
structure CrawlState where
  visited_urls : Finset String
  scraped_content : List (String × String)
  url_queue : List String
  found_links : Finset String
  discovered_order : List String
  popped : List String
  events : List ProgressEvent
  sleeps : List String
  deriving DecidableEq

/-- WebCrawler.update_progress (src/crawler.py:138-153): records the progress
data computed from the current state at call time. -/
def update_progress (c : WebCrawler) (s : CrawlState) (message : String)
    (current_url : Option String) (links_found : Nat) : CrawlState :=
  { s with events := s.events ++
      [{ message := message, current_url := current_url,
         visited_count := s.visited_urls.card,
         queue_size := s.url_queue.length,
         total_links_found := s.found_links.card,
         links_on_current_page := links_found,
         max_pages := c.max_pages }] }

/-- One pass of the for-loop over `page_links` (src/crawler.py:183-188):
offer a single link to the frontier.  `new_links_count` is the running
counter incremented at line 186. -/
def offer (s : CrawlState) (new_links_count : Nat) (link : String) :
    CrawlState × Nat :=
  if link ∉ s.found_links then
    let s1 := { s with found_links := insert link s.found_links,
                       discovered_order := s.discovered_order ++ [link] }
    if link ∉ s1.visited_urls ∧ link ∉ s1.url_queue then
      ({ s1 with url_queue := s1.url_queue ++ [link] }, new_links_count + 1)
    else
      (s1, new_links_count + 1)
  else
    (s, new_links_count)

/-- The whole for-loop over `page_links` (src/crawler.py:183-188). -/
def offer_links : CrawlState → Nat → List String → CrawlState × Nat
  | s, n, [] => (s, n)
  | s, n, link :: rest =>
    let p := offer s n link
    offer_links p.1 p.2 rest

/-- Python dict item assignment `d[k] = v`: overwrite in place when the key
exists, else append (insertion order preserved). -/
def dictInsert (d : List (String × String)) (k v : String) :
    List (String × String) :=
  if d.any (fun p => p.1 == k) then
    d.map (fun p => if p.1 = k then (k, v) else p)
  else
    d ++ [(k, v)]

/-- The body run for a truthy fetch result (src/crawler.py:176-206): record
the page, extract and offer its links, report progress, and pace when
`delay > 0`.  `s1` is the state right after the "Scraping page" report. -/
def crawl_succ (w : World) (c : WebCrawler) (s1 : CrawlState)
    (current_url html_content : String) : CrawlState :=
  let s2 : CrawlState :=
    { s1 with
      visited_urls := insert current_url s1.visited_urls,
      scraped_content :=
        dictInsert s1.scraped_content current_url html_content }
  let page_links :=
    extract_links c.same_domain_only (w.hrefs html_content) current_url
  let p := offer_links s2 0 page_links
  let s3 := update_progress c p.1
    ("✅ Found " ++ toString p.2 ++ " new links") (some current_url)
    page_links.length
  if 0 < c.delay then { s3 with sleeps := s3.sleeps ++ [current_url] }
  else s3

/-- One iteration of the while-loop of `crawl_website`
(src/crawler.py:166-208): pop the head of the queue, skip it when already
visited, otherwise fetch it; on a falsy fetch result (`None` or `""`) report
the failure; on success run `crawl_succ`. -/
def crawl_iter (w : World) (c : WebCrawler) (s : CrawlState) : CrawlState :=
  match s.url_queue with
  | [] => s
  | current_url :: rest =>
    let s0 : CrawlState :=
      { s with url_queue := rest, popped := s.popped ++ [current_url] }
    if current_url ∈ s0.visited_urls then s0
    else
      let s1 := update_progress c s0 "🕷️ Scraping page..." (some current_url) 0
      match w.fetch current_url with
      | none => update_progress c s1 "❌ Failed to scrape" (some current_url) 0
      | some html_content =>
        if html_content == "" then
          update_progress c s1 "❌ Failed to scrape" (some current_url) 0
        else
          crawl_succ w c s1 current_url html_content

theorem update_progress_visited (c : WebCrawler) (s : CrawlState)
    (m : String) (u : Option String) (n : Nat) :
    (update_progress c s m u n).visited_urls = s.visited_urls := rfl

theorem update_progress_scraped (c : WebCrawler) (s : CrawlState)
    (m : String) (u : Option String) (n : Nat) :
    (update_progress c s m u n).scraped_content = s.scraped_content := rfl

theorem update_progress_queue (c : WebCrawler) (s : CrawlState)
    (m : String) (u : Option String) (n : Nat) :
    (update_progress c s m u n).url_queue = s.url_queue := rfl

theorem update_progress_found (c : WebCrawler) (s : CrawlState)
    (m : String) (u : Option String) (n : Nat) :
    (update_progress c s m u n).found_links = s.found_links := rfl

theorem update_progress_order (c : WebCrawler) (s : CrawlState)
    (m : String) (u : Option String) (n : Nat) :
    (update_progress c s m u n).discovered_order = s.discovered_order := rfl

theorem update_progress_popped (c : WebCrawler) (s : CrawlState)
    (m : String) (u : Option String) (n : Nat) :
    (update_progress c s m u n).popped = s.popped := rfl

theorem update_progress_sleeps (c : WebCrawler) (s : CrawlState)
    (m : String) (u : Option String) (n : Nat) :
    (update_progress c s m u n).sleeps = s.sleeps := rfl

/-- Offering a link never changes the fields other than `found_links`,
`discovered_order` and `url_queue`. -/
theorem offer_untouched (s : CrawlState) (n : Nat) (link : String) :
    (offer s n link).1.visited_urls = s.visited_urls ∧
    (offer s n link).1.scraped_content = s.scraped_content ∧
    (offer s n link).1.popped = s.popped ∧
    (offer s n link).1.events = s.events ∧
    (offer s n link).1.sleeps = s.sleeps := by
  simp only [offer]
  split
  · split
    · exact ⟨rfl, rfl, rfl, rfl, rfl⟩
    · exact ⟨rfl, rfl, rfl, rfl, rfl⟩
  · exact ⟨rfl, rfl, rfl, rfl, rfl⟩

/-- The offer loop never changes the fields other than `found_links`,
`discovered_order` and `url_queue`. -/
theorem offer_links_untouched (links : List String) :
    ∀ (s : CrawlState) (n : Nat),
    (offer_links s n links).1.visited_urls = s.visited_urls ∧
    (offer_links s n links).1.scraped_content = s.scraped_content ∧
    (offer_links s n links).1.popped = s.popped ∧
    (offer_links s n links).1.events = s.events ∧
    (offer_links s n links).1.sleeps = s.sleeps := by
  induction links with
  | nil => exact fun s n => ⟨rfl, rfl, rfl, rfl, rfl⟩
  | cons l t ih =>
    intro s n
    have h1 := offer_untouched s n l
    have h2 := ih (offer s n l).1 (offer s n l).2
    simp only [offer_links]
    exact ⟨h2.1.trans h1.1, h2.2.1.trans h1.2.1, h2.2.2.1.trans h1.2.2.1,
      h2.2.2.2.1.trans h1.2.2.2.1, h2.2.2.2.2.trans h1.2.2.2.2⟩

theorem crawl_succ_visited (w : World) (c : WebCrawler) (s1 : CrawlState)
    (cu html : String) :
    (crawl_succ w c s1 cu html).visited_urls = insert cu s1.visited_urls := by
  simp only [crawl_succ]
  split <;> simp [update_progress, offer_links_untouched]

theorem crawl_succ_scraped (w : World) (c : WebCrawler) (s1 : CrawlState)
    (cu html : String) :
    (crawl_succ w c s1 cu html).scraped_content =
      dictInsert s1.scraped_content cu html := by
  simp only [crawl_succ]
  split <;> simp [update_progress, offer_links_untouched]

theorem crawl_succ_popped (w : World) (c : WebCrawler) (s1 : CrawlState)
    (cu html : String) :
    (crawl_succ w c s1 cu html).popped = s1.popped := by
  simp only [crawl_succ]
  split <;> simp [update_progress, offer_links_untouched]

/-- Every iteration either leaves `visited_urls` unchanged and shortens the
queue by exactly one, or grows `visited_urls` by exactly one element
(used for termination of the loop). -/
theorem crawl_iter_shape (w : World) (c : WebCrawler) (s : CrawlState)
    (h : s.url_queue ≠ []) :
    ((crawl_iter w c s).visited_urls = s.visited_urls ∧
      (crawl_iter w c s).url_queue.length + 1 = s.url_queue.length) ∨
    (crawl_iter w c s).visited_urls.card = s.visited_urls.card + 1 := by
  match hq : s.url_queue with
  | [] => exact absurd hq h
  | current_url :: rest =>
    simp only [crawl_iter, hq]
    by_cases hv : current_url ∈ s.visited_urls
    · simp [hv]
    · simp only [hv, if_false, ite_false]
      rcases hf : w.fetch current_url with _ | html
      · simp [update_progress]
      · dsimp only
        by_cases he : (html == "") = true
        · simp [he, update_progress]
        · rw [if_neg he]
          right
          rw [crawl_succ_visited]
          simp [update_progress, Finset.card_insert_of_not_mem hv]

/-- The while-loop of `crawl_website` (src/crawler.py:166-208): iterate while
the queue is nonempty and fewer than `max_pages` pages are visited. -/
def crawl_loop (w : World) (c : WebCrawler) (s : CrawlState) : CrawlState :=
  if h : s.url_queue ≠ [] ∧ (s.visited_urls.card : Int) < c.max_pages then
    crawl_loop w c (crawl_iter w c s)
  else s
  termination_by ((c.max_pages - s.visited_urls.card).toNat, s.url_queue.length)
  decreasing_by
    rcases crawl_iter_shape w c s h.1 with ⟨h1, h2⟩ | h1
    · apply Prod.Lex.right'
      · rw [h1]
      · omega
    · apply Prod.Lex.left
      have h2 := h.2
      omega

/-- One-step unfolding of the loop. -/
theorem crawl_loop_eq (w : World) (c : WebCrawler) (s : CrawlState) :
    crawl_loop w c s =
      if s.url_queue ≠ [] ∧ (s.visited_urls.card : Int) < c.max_pages then
        crawl_loop w c (crawl_iter w c s)
      else s := by
  rw [crawl_loop.eq_def]
  split <;> rfl

/-- The session state right before the loop of `crawl_website` starts
(src/crawler.py:159-164): the fresh attributes set by `__init__`, then
`url_queue = deque([start_url])`, `found_links.add(start_url)` and the
"Starting crawl" progress report.  A session always runs on a freshly
constructed crawler (spec §3 lifecycle). -/
def init_state (c : WebCrawler) (start_url : String) : CrawlState :=
  update_progress c
    { visited_urls := ∅, scraped_content := [], url_queue := [start_url],
      found_links := {start_url}, discovered_order := [start_url],
      popped := [], events := [], sleeps := [] }
    "🔍 Starting crawl..." (some start_url) 0

/-- WebCrawler.crawl_website (src/crawler.py:155-214): initialise the
session, run the loop, and report the final summary.  The model returns the
full final state; the Python method returns its `scraped_content`, see
`crawl_result`. -/
def crawl_website (w : World) (c : WebCrawler) (start_url : String) :
    CrawlState :=
  let sF := crawl_loop w c (init_state c start_url)
  update_progress c sF
    ("Crawling completed! Scraped " ++ toString sF.visited_urls.card ++
      " pages, found " ++ toString sF.found_links.card ++ " total links")
    none 0

/-- The value `crawl_website` returns (src/crawler.py:214). -/
def crawl_result (w : World) (c : WebCrawler) (start_url : String) :
    List (String × String) :=
  (crawl_website w c start_url).scraped_content

/-- The states a crawl session passes through: the state entering the loop,
and every state after a completed iteration whose entry satisfied the loop
condition. -/
inductive Reach (w : World) (c : WebCrawler) (start_url : String) :
    CrawlState → Prop where
  | init : Reach w c start_url (init_state c start_url)
  | step : ∀ s, Reach w c start_url s → s.url_queue ≠ [] →
      (s.visited_urls.card : Int) < c.max_pages →
      Reach w c start_url (crawl_iter w c s)

/-- The loop only moves through reachable states. -/
theorem reach_crawl_loop (w : World) (c : WebCrawler) (start_url : String)
    (s : CrawlState) (hr : Reach w c start_url s) :
    Reach w c start_url (crawl_loop w c s) := by
  induction s using crawl_loop.induct w c with
  | case1 s hc ih =>
    rw [crawl_loop_eq, if_pos hc]
    exact ih (Reach.step s hr hc.1 hc.2)
  | case2 s hc =>
    rw [crawl_loop_eq, if_neg hc]
    exact hr

theorem mem_dedupAppend (acc : List String) (a u : String) :
    u ∈ dedupAppend acc a ↔ u ∈ acc ∨ u = a := by
  unfold dedupAppend
  split <;> rename_i h
  · constructor
    · exact Or.inl
    · rintro (h1 | rfl)
      · exact h1
      · exact h
  · simp [List.mem_append]

theorem nodup_dedupAppend (acc : List String) (a : String) (h : acc.Nodup) :
    (dedupAppend acc a).Nodup := by
  unfold dedupAppend
  split <;> rename_i h2
  · exact h
  · simp [List.nodup_append, h, h2]

theorem mem_foldl_dedupAppend (l : List String) :
    ∀ (acc : List String) (u : String),
      u ∈ l.foldl dedupAppend acc ↔ u ∈ acc ∨ u ∈ l := by
  induction l with
  | nil => simp
  | cons a t ih =>
    intro acc u
    rw [List.foldl_cons, ih, mem_dedupAppend, List.mem_cons]
    tauto

theorem nodup_foldl_dedupAppend (l : List String) :
    ∀ acc : List String, acc.Nodup → (l.foldl dedupAppend acc).Nodup := by
  induction l with
  | nil => exact fun acc h => h
  | cons a t ih => exact fun acc h => ih _ (nodup_dedupAppend acc a h)

theorem insertionDedup_mem (l : List String) (u : String) :
    u ∈ insertionDedup l ↔ u ∈ l := by
  unfold insertionDedup
  rw [mem_foldl_dedupAppend]
  simp

theorem insertionDedup_nodup (l : List String) : (insertionDedup l).Nodup :=
  nodup_foldl_dedupAppend l [] List.nodup_nil

/-- Membership in the extractor's result: exactly the resolutions of the
page's hrefs that the URL filter accepts. -/
theorem extract_links_mem (sdo : Bool) (hrefs : List String)
    (base_url u : String) :
    u ∈ extract_links sdo hrefs base_url ↔
      (∃ h ∈ hrefs, urljoin base_url h = u) ∧
        is_valid_url sdo u (get_domain base_url) = true := by
  unfold extract_links
  rw [insertionDedup_mem]
  simp only [List.mem_filter, List.mem_map]

theorem extract_links_nodup (sdo : Bool) (hrefs : List String)
    (base_url : String) : (extract_links sdo hrefs base_url).Nodup :=
  insertionDedup_nodup _

/-- When `same_domain_only` holds, a URL the filter accepts has exactly the
base domain as its host. -/
theorem is_valid_url_domain {u bd : String}
    (h : is_valid_url true u bd = true) : get_domain u = bd := by
  unfold is_valid_url at h
  split at h
  · exact absurd h (by simp)
  · dsimp only at h
    split at h
    · exact absurd h (by simp)
    · split at h
      · exact absurd h (by simp)
      · rw [if_pos rfl] at h
        simpa using h

/-- Offering a link whose membership status in `discovered_order` is known,
on a state whose bookkeeping is consistent: an already-discovered link is a
no-op, a new link is appended to `found_links`, `discovered_order` and
`url_queue` and counted. -/
theorem offer_spec (s : CrawlState) (n : Nat) (link : String)
    (hfound : s.found_links = s.discovered_order.toFinset)
    (hvis : ∀ x ∈ s.visited_urls, x ∈ s.discovered_order)
    (hq : ∀ x ∈ s.url_queue, x ∈ s.discovered_order) :
    (link ∈ s.discovered_order → offer s n link = (s, n)) ∧
    (link ∉ s.discovered_order → offer s n link =
      ({ s with found_links := insert link s.found_links,
                discovered_order := s.discovered_order ++ [link],
                url_queue := s.url_queue ++ [link] }, n + 1)) := by
  constructor
  · intro hmem
    unfold offer
    rw [if_neg]
    simp only [not_not, hfound]
    exact List.mem_toFinset.mpr hmem
  · intro hmem
    have hnf : link ∉ s.found_links := by
      rw [hfound]
      exact fun hx => hmem (List.mem_toFinset.mp hx)
    unfold offer
    rw [if_pos hnf]
    dsimp only
    rw [if_pos ⟨fun hx => hmem (hvis link hx), fun hx => hmem (hq link hx)⟩]

/-- Running the offer loop on a consistent state appends some sublist of the
offered links simultaneously to `discovered_order` and to `url_queue`, and
keeps the bookkeeping consistent. -/
theorem offer_links_spec (links : List String) :
    ∀ (s : CrawlState) (n : Nat),
    s.found_links = s.discovered_order.toFinset →
    (∀ x ∈ s.visited_urls, x ∈ s.discovered_order) →
    (∀ x ∈ s.url_queue, x ∈ s.discovered_order) →
    s.discovered_order.Nodup →
    ∃ newl : List String,
      (offer_links s n links).1.discovered_order =
        s.discovered_order ++ newl ∧
      (offer_links s n links).1.url_queue = s.url_queue ++ newl ∧
      (offer_links s n links).1.found_links =
        (offer_links s n links).1.discovered_order.toFinset ∧
      (offer_links s n links).1.discovered_order.Nodup ∧
      (∀ x ∈ newl, x ∈ links) := by
  induction links with
  | nil =>
    intro s n h1 _ _ h4
    exact ⟨[], by simp [offer_links], by simp [offer_links],
      by simpa [offer_links] using h1, by simpa [offer_links] using h4,
      by simp⟩
  | cons l t ih =>
    intro s n h1 h2 h3 h4
    simp only [offer_links]
    have ho := offer_spec s n l h1 h2 h3
    by_cases hmem : l ∈ s.discovered_order
    · rw [ho.1 hmem]
      obtain ⟨newl, e1, e2, e3, e4, e5⟩ := ih s n h1 h2 h3 h4
      exact ⟨newl, e1, e2, e3, e4,
        fun x hx => List.mem_cons_of_mem _ (e5 x hx)⟩
    · rw [ho.2 hmem]
      have h1' : (insert l s.found_links : Finset String) =
          (s.discovered_order ++ [l]).toFinset := by
        rw [h1, List.toFinset_append]
        simp [Finset.union_comm, Finset.insert_eq]
      have h2' : ∀ x ∈ s.visited_urls, x ∈ s.discovered_order ++ [l] :=
        fun x hx => List.mem_append_left _ (h2 x hx)
      have h3' : ∀ x ∈ s.url_queue ++ [l], x ∈ s.discovered_order ++ [l] := by
        intro x hx
        rcases List.mem_append.mp hx with hx | hx
        · exact List.mem_append_left _ (h3 x hx)
        · exact List.mem_append_right _ hx
      have h4' : (s.discovered_order ++ [l]).Nodup :=
        List.nodup_append.mpr ⟨h4, List.nodup_singleton l,
          fun a ha hb => hmem ((List.mem_singleton.mp hb) ▸ ha)⟩
      obtain ⟨newl, e1, e2, e3, e4, e5⟩ :=
        ih { s with found_links := insert l s.found_links,
                    discovered_order := s.discovered_order ++ [l],
                    url_queue := s.url_queue ++ [l] }
          (n + 1) h1' h2' h3' h4'
      refine ⟨l :: newl, ?_, ?_, e3, e4, ?_⟩
      · rw [e1]
        simp
      · rw [e2]
        simp
      · intro x hx
        rcases List.mem_cons.mp hx with rfl | hx
        · exact List.mem_cons_self _ _
        · exact List.mem_cons_of_mem _ (e5 x hx)

/-- The loop invariant of a crawl session started at `start_url`, tying the
real state fields to the observation traces:
`popped ++ url_queue = discovered_order` (everything discovered is enqueued
exactly once, FIFO), `found_links` is the set of elements of
`discovered_order`, `visited_urls` is the key set of `scraped_content`,
those keys are (in order) a sublist of `popped`, queued pages are unvisited,
every visited page had a truthy fetch, every discovered link other than the
seed was extracted from a visited page, domains are anchored to the seed
when `same_domain_only` holds, and the page budget is respected. -/
structure Inv (w : World) (c : WebCrawler) (start_url : String)
    (s : CrawlState) : Prop where
  head_seed : ∃ t, s.discovered_order = start_url :: t
  pq : s.popped ++ s.url_queue = s.discovered_order
  order_nodup : s.discovered_order.Nodup
  found_eq : s.found_links = s.discovered_order.toFinset
  visited_eq : s.visited_urls = (s.scraped_content.map Prod.fst).toFinset
  keys_nodup : (s.scraped_content.map Prod.fst).Nodup
  keys_popped : (s.scraped_content.map Prod.fst).Sublist s.popped
  queue_fresh : ∀ u ∈ s.url_queue, u ∉ s.visited_urls
  visited_fetch : ∀ u ∈ s.visited_urls,
    ∃ html, w.fetch u = some html ∧ html ≠ ""
  link_src : ∀ l ∈ s.discovered_order, l = start_url ∨
    ∃ u html, u ∈ s.visited_urls ∧ w.fetch u = some html ∧ html ≠ "" ∧
      l ∈ extract_links c.same_domain_only (w.hrefs html) u
  dom_anchor : c.same_domain_only = true →
    ∀ l ∈ s.discovered_order, get_domain l = get_domain start_url
  budget : 0 ≤ c.max_pages → (s.visited_urls.card : Int) ≤ c.max_pages

theorem inv_visited_order {w : World} {c : WebCrawler} {u0 : String}
    {s : CrawlState} (inv : Inv w c u0 s) :
    ∀ x ∈ s.visited_urls, x ∈ s.discovered_order := by
  intro x hx
  rw [inv.visited_eq] at hx
  rw [← inv.pq]
  exact List.mem_append_left _
    (inv.keys_popped.subset (List.mem_toFinset.mp hx))

theorem inv_queue_order {w : World} {c : WebCrawler} {u0 : String}
    {s : CrawlState} (inv : Inv w c u0 s) :
    ∀ x ∈ s.url_queue, x ∈ s.discovered_order := by
  intro x hx
  rw [← inv.pq]
  exact List.mem_append_right _ hx

theorem inv_init (w : World) (c : WebCrawler) (u0 : String) :
    Inv w c u0 (init_state c u0) := by
  refine ⟨⟨[], rfl⟩, rfl, ?_, ?_, ?_, ?_, ?_, ?_, ?_, ?_, ?_, ?_⟩
  · simp [init_state, update_progress]
  · simp [init_state, update_progress]
  · simp [init_state, update_progress]
  · simp [init_state, update_progress]
  · simp [init_state, update_progress]
  · simp [init_state, update_progress]
  · simp [init_state, update_progress]
  · intro l hl
    left
    simp only [init_state, update_progress] at hl
    simpa using hl
  · intro _ l hl
    simp only [init_state, update_progress] at hl
    simp at hl
    subst hl
    rfl
  · intro h
    simp [init_state, update_progress, h]

/-- An events-only change preserves the invariant. -/
theorem inv_update (w : World) (c : WebCrawler) (u0 : String)
    (s : CrawlState) (m : String) (cu : Option String) (n : Nat)
    (inv : Inv w c u0 s) : Inv w c u0 (update_progress c s m cu n) :=
  ⟨inv.head_seed, inv.pq, inv.order_nodup, inv.found_eq, inv.visited_eq,
   inv.keys_nodup, inv.keys_popped, inv.queue_fresh, inv.visited_fetch,
   inv.link_src, inv.dom_anchor, inv.budget⟩

/-- Popping the head of the queue preserves the invariant (fields given
explicitly so the lemma applies to any events-extended form of the state). -/
theorem inv_pop (w : World) (c : WebCrawler) (u0 : String)
    (s s' : CrawlState) (current : String) (rest : List String)
    (inv : Inv w c u0 s) (hqe : s.url_queue = current :: rest)
    (hm : (s.visited_urls.card : Int) < c.max_pages)
    (h1 : s'.visited_urls = s.visited_urls)
    (h2 : s'.scraped_content = s.scraped_content)
    (h3 : s'.url_queue = rest)
    (h4 : s'.found_links = s.found_links)
    (h5 : s'.discovered_order = s.discovered_order)
    (h6 : s'.popped = s.popped ++ [current]) :
    Inv w c u0 s' := by
  refine ⟨?_, ?_, ?_, ?_, ?_, ?_, ?_, ?_, ?_, ?_, ?_, ?_⟩
  · rw [h5]; exact inv.head_seed
  · rw [h6, h3, h5, List.append_assoc]
    have := inv.pq
    rw [hqe] at this
    simpa using this
  · rw [h5]; exact inv.order_nodup
  · rw [h4, h5]; exact inv.found_eq
  · rw [h1, h2]; exact inv.visited_eq
  · rw [h2]; exact inv.keys_nodup
  · rw [h2, h6]
    exact inv.keys_popped.trans (List.sublist_append_left _ _)
  · rw [h3, h1]
    intro x hx
    exact inv.queue_fresh x (by rw [hqe]; exact List.mem_cons_of_mem _ hx)
  · rw [h1]; exact inv.visited_fetch
  · rw [h5, h1]; exact inv.link_src
  · rw [h5]; exact inv.dom_anchor
  · rw [h1]
    intro _
    exact le_of_lt hm

theorem crawl_succ_queue (w : World) (c : WebCrawler) (s1 : CrawlState)
    (cu html : String) :
    (crawl_succ w c s1 cu html).url_queue =
      (offer_links
        { s1 with visited_urls := insert cu s1.visited_urls,
                  scraped_content := dictInsert s1.scraped_content cu html }
        0 (extract_links c.same_domain_only (w.hrefs html) cu)).1.url_queue := by
  simp only [crawl_succ]
  split <;> simp [update_progress]

theorem crawl_succ_found (w : World) (c : WebCrawler) (s1 : CrawlState)
    (cu html : String) :
    (crawl_succ w c s1 cu html).found_links =
      (offer_links
        { s1 with visited_urls := insert cu s1.visited_urls,
                  scraped_content := dictInsert s1.scraped_content cu html }
        0 (extract_links c.same_domain_only (w.hrefs html) cu)).1.found_links := by
  simp only [crawl_succ]
  split <;> simp [update_progress]

theorem crawl_succ_order (w : World) (c : WebCrawler) (s1 : CrawlState)
    (cu html : String) :
    (crawl_succ w c s1 cu html).discovered_order =
      (offer_links
        { s1 with visited_urls := insert cu s1.visited_urls,
                  scraped_content := dictInsert s1.scraped_content cu html }
        0 (extract_links c.same_domain_only (w.hrefs html) cu)).1.discovered_order := by
  simp only [crawl_succ]
  split <;> simp [update_progress]

/-- When the new key is absent, Python's `d[k] = v` appends the pair. -/
theorem dictInsert_of_not_mem (d : List (String × String)) (k v : String)
    (h : k ∉ d.map Prod.fst) : dictInsert d k v = d ++ [(k, v)] := by
  unfold dictInsert
  rw [if_neg]
  simp only [List.any_eq_true, not_exists, not_and]
  intro p hp
  intro hb
  exact h (List.mem_map.mpr ⟨p, hp, beq_iff_eq.mp hb⟩)

/-- A successful iteration body preserves the invariant.  `s1` is the state
after the pop and the "Scraping page" report; `current` is the popped URL,
required to be the most recent element of `popped`. -/
theorem inv_crawl_succ (w : World) (c : WebCrawler) (u0 : String)
    (s1 : CrawlState) (current html : String) (inv1 : Inv w c u0 s1)
    (hcv : current ∉ s1.visited_urls)
    (hpop : ∃ pre, s1.popped = pre ++ [current] ∧
      (s1.scraped_content.map Prod.fst).Sublist pre)
    (hf : w.fetch current = some html) (he : html ≠ "")
    (hm : (s1.visited_urls.card : Int) < c.max_pages) :
    Inv w c u0 (crawl_succ w c s1 current html) := by
  obtain ⟨pre, hpre, hkeys⟩ := hpop
  have hcur_pop : current ∈ s1.popped := by
    rw [hpre]
    exact List.mem_append_right _ (List.mem_singleton_self _)
  have hcur_ord : current ∈ s1.discovered_order := by
    rw [← inv1.pq]
    exact List.mem_append_left _ hcur_pop
  have hnokey : current ∉ s1.scraped_content.map Prod.fst := by
    intro hmem
    exact hcv (by rw [inv1.visited_eq]; exact List.mem_toFinset.mpr hmem)
  have hdict : dictInsert s1.scraped_content current html =
      s1.scraped_content ++ [(current, html)] :=
    dictInsert_of_not_mem _ _ _ hnokey
  have hcur_queue : current ∉ s1.url_queue := by
    intro hq
    have hnd := inv1.order_nodup
    rw [← inv1.pq] at hnd
    exact (List.nodup_append.mp hnd).2.2 hcur_pop hq
  -- the state entering the offer loop
  have hofl := offer_links_spec
    (extract_links c.same_domain_only (w.hrefs html) current)
    { s1 with visited_urls := insert current s1.visited_urls,
              scraped_content := dictInsert s1.scraped_content current html }
    0 inv1.found_eq
    (by
      intro x hx
      rcases Finset.mem_insert.mp hx with rfl | hx
      · exact hcur_ord
      · exact inv_visited_order inv1 x hx)
    (fun x hx => inv_queue_order inv1 x hx)
    inv1.order_nodup
  obtain ⟨newl, e1, e2, e3, e4, e5⟩ := hofl
  have hdisj : ∀ x ∈ newl, x ∉ s1.discovered_order := by
    intro x hx
    have hnd := e4
    rw [e1] at hnd
    exact fun hord => (List.nodup_append.mp hnd).2.2 hord hx
  refine ⟨?_, ?_, ?_, ?_, ?_, ?_, ?_, ?_, ?_, ?_, ?_, ?_⟩
  · rw [crawl_succ_order, e1]
    obtain ⟨t, ht⟩ := inv1.head_seed
    exact ⟨t ++ newl, by rw [ht]; simp⟩
  · rw [crawl_succ_popped, crawl_succ_queue, crawl_succ_order, e1, e2]
    dsimp only
    rw [← List.append_assoc, inv1.pq]
  · rw [crawl_succ_order]
    exact e4
  · rw [crawl_succ_found, crawl_succ_order]
    exact e3
  · rw [crawl_succ_visited, crawl_succ_scraped, hdict, inv1.visited_eq]
    rw [List.map_append, List.toFinset_append]
    simp [Finset.union_comm, Finset.insert_eq]
  · rw [crawl_succ_scraped, hdict, List.map_append]
    refine List.nodup_append.mpr ⟨inv1.keys_nodup, by simp, ?_⟩
    intro a ha hb
    simp only [List.map_cons, List.map_nil, List.mem_singleton] at hb
    exact hnokey (hb ▸ ha)
  · rw [crawl_succ_scraped, crawl_succ_popped, hdict, List.map_append, hpre]
    exact hkeys.append (List.Sublist.refl _)
  · rw [crawl_succ_queue, crawl_succ_visited, e2]
    dsimp only
    intro x hx
    rcases List.mem_append.mp hx with hx | hx
    · intro hv
      rcases Finset.mem_insert.mp hv with rfl | hv
      · exact hcur_queue hx
      · exact inv1.queue_fresh x hx hv
    · intro hv
      rcases Finset.mem_insert.mp hv with rfl | hv
      · exact hdisj x hx hcur_ord
      · exact hdisj x hx (inv_visited_order inv1 x hv)
  · rw [crawl_succ_visited]
    intro x hx
    rcases Finset.mem_insert.mp hx with rfl | hx
    · exact ⟨html, hf, he⟩
    · exact inv1.visited_fetch x hx
  · rw [crawl_succ_order, crawl_succ_visited, e1]
    intro l hl
    rcases List.mem_append.mp hl with hl | hl
    · rcases inv1.link_src l hl with h0 | ⟨u, html', hu, hfu, heu, hext⟩
      · exact Or.inl h0
      · exact Or.inr ⟨u, html', Finset.mem_insert_of_mem hu, hfu, heu, hext⟩
    · exact Or.inr ⟨current, html, Finset.mem_insert_self _ _, hf, he, e5 l hl⟩
  · rw [crawl_succ_order, e1]
    intro hsdo l hl
    rcases List.mem_append.mp hl with hl | hl
    · exact inv1.dom_anchor hsdo l hl
    · have hval := ((extract_links_mem _ _ _ _).mp (e5 l hl)).2
      rw [hsdo] at hval
      rw [is_valid_url_domain hval]
      exact inv1.dom_anchor hsdo current hcur_ord
  · rw [crawl_succ_visited]
    intro _
    rw [Finset.card_insert_of_not_mem hcv]
    push_cast
    omega

/-- Every loop iteration taken under the loop condition preserves the
invariant. -/
theorem inv_step (w : World) (c : WebCrawler) (u0 : String)
    (s : CrawlState) (inv : Inv w c u0 s) (hq : s.url_queue ≠ [])
    (hm : (s.visited_urls.card : Int) < c.max_pages) :
    Inv w c u0 (crawl_iter w c s) := by
  match hqe : s.url_queue with
  | [] => exact absurd hqe hq
  | current_url :: rest =>
  have hcv : current_url ∉ s.visited_urls :=
    inv.queue_fresh _ (by rw [hqe]; exact List.mem_cons_self _ _)
  have inv0 : Inv w c u0
      { s with url_queue := rest, popped := s.popped ++ [current_url] } :=
    inv_pop w c u0 s _ current_url rest inv hqe hm rfl rfl rfl rfl rfl rfl
  simp only [crawl_iter, hqe]
  rw [if_neg hcv]
  rcases hf : w.fetch current_url with _ | html
  · dsimp only
    exact inv_update _ _ _ _ _ _ _ (inv_update _ _ _ _ _ _ _ inv0)
  · dsimp only
    by_cases he : (html == "") = true
    · rw [if_pos he]
      exact inv_update _ _ _ _ _ _ _ (inv_update _ _ _ _ _ _ _ inv0)
    · rw [if_neg he]
      refine inv_crawl_succ w c u0 _ current_url html
        (inv_update _ _ _ _ _ _ _ inv0) hcv
        ⟨s.popped, rfl, inv.keys_popped⟩ hf ?_ hm
      intro h0
      rw [h0] at he
      exact he rfl

/-- Every reachable state of a session satisfies the invariant. -/
theorem reach_inv (w : World) (c : WebCrawler) (u0 : String)
    (s : CrawlState) (hr : Reach w c u0 s) : Inv w c u0 s := by
  induction hr with
  | init => exact inv_init w c u0
  | step s _ hq hm ih => exact inv_step w c u0 s ih hq hm

/-- The final state of `crawl_website` satisfies the invariant. -/
theorem crawl_website_inv (w : World) (c : WebCrawler) (start_url : String) :
    Inv w c start_url (crawl_website w c start_url) := by
  have hinv := reach_inv w c start_url _
    (reach_crawl_loop w c start_url _ Reach.init)
  unfold crawl_website
  exact inv_update _ _ _ _ _ _ _ hinv

def seedU : String := "https://x.com/"

def bU : String := "https://x.com/b"

def cU : String := "https://x.com/c"

def dU : String := "https://x.com/d"

/-- A four-page site for the BFS example (spec §8.5): the seed page links to
B then C in that document order, B links to D, C and D link nowhere; all
fetches succeed. -/
def wBfs : World :=
  { fetch := fun u =>
      if u = seedU then some "<s>"
      else if u = bU then some "<b>"
      else if u = cU then some "<c>"
      else if u = dU then some "<d>"
      else none,
    hrefs := fun m =>
      if m = "<s>" then [bU, cU]
      else if m = "<b>" then [dU]
      else [] }

/-- The default configuration but with no pacing delay. -/
def cBfs : WebCrawler := WebCrawler.init 10 0 true

/-- A world where every fetch succeeds with a fixed linkless page. -/
def wOk : World :=
  { fetch := fun _ => some "<html></html>", hrefs := fun _ => [] }

/-- A world where every fetch raises. -/
def wFail : World := { fetch := fun _ => none, hrefs := fun _ => [] }

/-- A world where every fetch succeeds with empty content. -/
def wEmpty : World := { fetch := fun _ => some "", hrefs := fun _ => [] }

theorem offer_mem_found (s : CrawlState) (n : Nat) (u : String) :
    u ∈ (offer s n u).1.found_links := by
  unfold offer
  split <;> rename_i h
  · dsimp only
    split
    · exact Finset.mem_insert_self _ _
    · exact Finset.mem_insert_self _ _
  · exact not_not.mp h

theorem offer_of_mem (s : CrawlState) (n : Nat) (u : String)
    (h : u ∈ s.found_links) : offer s n u = (s, n) := by
  unfold offer
  rw [if_neg (not_not.mpr h)]

theorem offer_count_le (s : CrawlState) (n : Nat) (u : String)
    (h : s.url_queue.count u ≤ 1) :
    (offer s n u).1.url_queue.count u ≤ 1 := by
  unfold offer
  split
  · dsimp only
    split <;> rename_i hc
    · dsimp only
      rw [List.count_append, List.count_eq_zero.mpr hc.2]
      simp
    · exact h
  · exact h

theorem offer_count_grow (s : CrawlState) (n : Nat) (u : String) :
    (offer s n u).2 ≤ n + 1 := by
  unfold offer
  split
  · dsimp only
    split
    · exact le_refl _
    · exact le_refl _
  · exact Nat.le_succ n

/-- C8: offering a URL that is already discovered is a no-op — a second offer
of the same URL changes neither the state nor the new-links counter; one
offer grows the counter by at most one; and an offer never yields a second
queue entry for the same URL. -/
theorem offer_idempotent (s : CrawlState) (n : Nat) (u : String) :
    u ∈ (offer s n u).1.found_links ∧
    offer (offer s n u).1 (offer s n u).2 u = offer s n u ∧
    (offer s n u).2 ≤ n + 1 ∧
    (s.url_queue.count u ≤ 1 → (offer s n u).1.url_queue.count u ≤ 1) := by
  refine ⟨offer_mem_found s n u, ?_, offer_count_grow s n u,
    offer_count_le s n u⟩
  rw [offer_of_mem _ _ _ (offer_mem_found s n u)]

/-- A concrete frontier state: the initial session state of a default crawl
of the seed. -/
def s0w : CrawlState := init_state (WebCrawler.init 10 2 true) seedU

/-- The URL offered twice in the C8 witness. -/
def u0w : String := seedU

/-- Witness for C8 on a concrete state: the initial session frontier of a
crawl of the seed, offered the seed URL twice. -/
theorem offer_idempotent_witness :
    u0w ∈ (offer s0w 0 u0w).1.found_links ∧
    offer (offer s0w 0 u0w).1 (offer s0w 0 u0w).2 u0w = offer s0w 0 u0w ∧
    (offer s0w 0 u0w).2 ≤ 0 + 1 ∧
    (s0w.url_queue.count u0w ≤ 1 →
      (offer s0w 0 u0w).1.url_queue.count u0w ≤ 1) :=
  offer_idempotent s0w 0 u0w

/-- C1: for every crawl session whose configuration carries a legal budget
(`maxPages = N ≥ 0`), the ScrapedContent mapping `crawl_website` returns has
at most N entries, the final visited set has at most N elements, and
`|visited| ≤ N` holds at every reachable point of the loop. -/
theorem budget_invariant (w : World) (c : WebCrawler) (start_url : String)
    (hN : 0 ≤ c.max_pages) :
    ((crawl_result w c start_url).length : Int) ≤ c.max_pages ∧
    ((crawl_website w c start_url).visited_urls.card : Int) ≤ c.max_pages ∧
    (∀ s, Reach w c start_url s →
      (s.visited_urls.card : Int) ≤ c.max_pages) := by
  have hfin := crawl_website_inv w c start_url
  have hcard := hfin.budget hN
  refine ⟨?_, hcard, fun s hs => (reach_inv w c start_url s hs).budget hN⟩
  have hlen : (crawl_website w c start_url).scraped_content.length =
      (crawl_website w c start_url).visited_urls.card := by
    rw [hfin.visited_eq, List.toFinset_card_of_nodup hfin.keys_nodup,
      List.length_map]
  unfold crawl_result
  rw [hlen]
  exact hcard

/-- Witness for C1 at a concrete session. -/
theorem budget_invariant_witness :
    (0 : Int) ≤ (WebCrawler.init 10 2 true).max_pages ∧
    ((crawl_result wOk (WebCrawler.init 10 2 true) seedU).length : Int) ≤
      (WebCrawler.init 10 2 true).max_pages :=
  ⟨by decide,
    (budget_invariant wOk (WebCrawler.init 10 2 true) seedU (by decide)).1⟩

/-- C2: with `sameDomainOnly` on, every link accepted into the discovered
set during a session — hence every link ever enqueued or visited — has its
host equal to the seed URL's host, regardless of which page it was
discovered on. -/
theorem domain_anchored_to_seed (w : World) (c : WebCrawler)
    (start_url : String) (hs : c.same_domain_only = true) :
    (∀ s, Reach w c start_url s →
      ∀ u ∈ s.found_links, get_domain u = get_domain start_url) ∧
    (∀ u ∈ (crawl_website w c start_url).found_links,
      get_domain u = get_domain start_url) := by
  have key : ∀ s, Reach w c start_url s →
      ∀ u ∈ s.found_links, get_domain u = get_domain start_url := by
    intro s hr u hu
    have hinv := reach_inv w c start_url s hr
    rw [hinv.found_eq] at hu
    exact hinv.dom_anchor hs u (List.mem_toFinset.mp hu)
  refine ⟨key, ?_⟩
  intro u hu
  have hinv := crawl_website_inv w c start_url
  rw [hinv.found_eq] at hu
  exact hinv.dom_anchor hs u (List.mem_toFinset.mp hu)

/-- Witness for C2 on the concrete four-page crawl. -/
theorem domain_anchored_to_seed_witness :
    cBfs.same_domain_only = true ∧
    ∀ u ∈ (crawl_website wBfs cBfs seedU).found_links,
      get_domain u = get_domain seedU :=
  ⟨rfl, (domain_anchored_to_seed wBfs cBfs seedU rfl).2⟩

/-- C3 counterexample: for a page carrying an anchor to a denylisted `.pdf`
URL, the spec-modelled unfiltered extractor keeps the resolved link but the
source's `extract_links` drops it — so extraction does apply eligibility
filtering, contrary to the claim. -/
theorem extractor_filters_cex :
    "https://x.com/report.pdf" ∈
      extract_links_spec ["https://x.com/report.pdf", "https://x.com/a"]
        "https://x.com/" ∧
    "https://x.com/report.pdf" ∉
      extract_links true ["https://x.com/report.pdf", "https://x.com/a"]
        "https://x.com/" := by
  decide

/-- C3 amended: the extractor returns the deduplicated collection of anchor
hrefs resolved against the page URL that pass the eligibility filter
`is_valid_url` (with the page's own domain as base domain) — the filtering
is applied inside extraction, not left to the caller. -/
theorem extractor_membership (sdo : Bool) (hrefs : List String)
    (base_url u : String) :
    (u ∈ extract_links sdo hrefs base_url ↔
      (∃ h ∈ hrefs, urljoin base_url h = u) ∧
        is_valid_url sdo u (get_domain base_url) = true) ∧
    (extract_links sdo hrefs base_url).Nodup :=
  ⟨extract_links_mem sdo hrefs base_url u,
   extract_links_nodup sdo hrefs base_url⟩

/-- Witness for the amended C3 at a concrete page. -/
theorem extractor_membership_witness :
    ("https://x.com/a" ∈ extract_links true ["https://x.com/a"]
        "https://x.com/" ↔
      (∃ h ∈ ["https://x.com/a"],
        urljoin "https://x.com/" h = "https://x.com/a") ∧
        is_valid_url true "https://x.com/a"
          (get_domain "https://x.com/") = true) ∧
    (extract_links true ["https://x.com/a"] "https://x.com/").Nodup :=
  extractor_membership true ["https://x.com/a"] "https://x.com/"
    "https://x.com/a"

/-- C5: the URL filter is a pure function (a Lean function of its inputs, so
identical inputs give identical outputs by construction) and decides the
spec's four examples as stated: a keyword-denylisted URL, an in-scope page,
an out-of-scope host, and a denylisted extension. -/
theorem filter_examples :
    is_valid_url true "https://x.com/login" "x.com" = false ∧
    is_valid_url true "https://x.com/about" "x.com" = true ∧
    is_valid_url true "https://other.com/about" "x.com" = false ∧
    is_valid_url true "https://x.com/report.pdf" "x.com" = false := by
  decide

/-- C9: at every reachable point of a crawl session the visited set is
contained in the discovered set, and every URL ever placed in the queue
(the already-popped ones plus the currently queued ones) is in the
discovered set. -/
theorem discovered_superset (w : World) (c : WebCrawler)
    (start_url : String) :
    ∀ s, Reach w c start_url s →
      s.visited_urls ⊆ s.found_links ∧
      ∀ u ∈ s.popped ++ s.url_queue, u ∈ s.found_links := by
  intro s hr
  have hinv := reach_inv w c start_url s hr
  constructor
  · intro x hx
    rw [hinv.found_eq]
    exact List.mem_toFinset.mpr (inv_visited_order hinv x hx)
  · intro u hu
    rw [hinv.found_eq]
    apply List.mem_toFinset.mpr
    rw [← hinv.pq]
    exact hu

/-- Witness for C9 at the initial state of a concrete session. -/
theorem discovered_superset_witness :
    (init_state cBfs seedU).visited_urls ⊆
      (init_state cBfs seedU).found_links ∧
    ∀ u ∈ (init_state cBfs seedU).popped ++ (init_state cBfs seedU).url_queue,
      u ∈ (init_state cBfs seedU).found_links :=
  discovered_superset wBfs cBfs seedU _ Reach.init

/-- C4: pages are visited in FIFO discovery order.  At every reachable point
the sequence of pages handed to the fetcher (`popped`) is an initial segment
of the discovery sequence, the successfully visited pages in visitation
order form a subsequence of the discovery sequence, and the discovery
sequence starts with the seed; on the concrete site where the seed links to
B then C and B links to D, with no limits hit and all fetches succeeding,
the visitation order is seed, B, C, D. -/
theorem bfs_order (w : World) (c : WebCrawler) (start_url : String) :
    (∀ s, Reach w c start_url s →
      (∃ t, s.popped ++ t = s.discovered_order) ∧
      (s.scraped_content.map Prod.fst).Sublist s.discovered_order ∧
      (∃ t, s.discovered_order = start_url :: t)) ∧
    (crawl_website wBfs cBfs seedU).scraped_content.map Prod.fst =
      [seedU, bU, cU, dU] := by
  constructor
  · intro s hr
    have hinv := reach_inv w c start_url s hr
    refine ⟨⟨s.url_queue, hinv.pq⟩, ?_, hinv.head_seed⟩
    have h1 : s.popped.Sublist s.discovered_order := by
      rw [← hinv.pq]
      exact List.sublist_append_left _ _
    exact hinv.keys_popped.trans h1
  · unfold crawl_website
    rw [crawl_loop_eq, if_pos (by decide), crawl_loop_eq, if_pos (by decide),
      crawl_loop_eq, if_pos (by decide), crawl_loop_eq, if_pos (by decide),
      crawl_loop_eq, if_neg (by decide)]
    decide

/-- Witness for C4's general part at the initial state of a concrete
session. -/
theorem bfs_order_witness :
    (∃ t, (init_state cBfs seedU).popped ++ t =
      (init_state cBfs seedU).discovered_order) ∧
    ((init_state cBfs seedU).scraped_content.map Prod.fst).Sublist
      (init_state cBfs seedU).discovered_order ∧
    (∃ t, (init_state cBfs seedU).discovered_order = seedU :: t) :=
  (bfs_order wBfs cBfs seedU).1 _ Reach.init

/-- C6: fetch failures are recovered locally.  A page whose fetch raises is
never in the visited set nor among the recorded pages; every discovered link
other than the seed was extracted from a successfully fetched page (so a
failed page contributes no links); an iteration whose fetch fails only pops
the page, leaves visited/content/links/pacing untouched, and appends a
"Failed to scrape" progress event; and a session whose seed fetch fails
terminates (the model's loop is total) with an empty mapping and zero
visited count. -/
theorem fetch_failure_recovery (w : World) (c : WebCrawler)
    (start_url : String) :
    (∀ s, Reach w c start_url s → ∀ u, w.fetch u = none →
      u ∉ s.visited_urls ∧ u ∉ s.scraped_content.map Prod.fst) ∧
    (∀ s, Reach w c start_url s → ∀ l ∈ s.found_links, l = start_url ∨
      ∃ u html, u ∈ s.visited_urls ∧ w.fetch u = some html ∧ html ≠ "" ∧
        l ∈ extract_links c.same_domain_only (w.hrefs html) u) ∧
    (∀ s current rest, s.url_queue = current :: rest →
      current ∉ s.visited_urls → w.fetch current = none →
      (crawl_iter w c s).visited_urls = s.visited_urls ∧
      (crawl_iter w c s).scraped_content = s.scraped_content ∧
      (crawl_iter w c s).found_links = s.found_links ∧
      (crawl_iter w c s).url_queue = rest ∧
      (crawl_iter w c s).sleeps = s.sleeps ∧
      ∃ e1 e2 : ProgressEvent,
        (crawl_iter w c s).events = s.events ++ [e1, e2] ∧
        e2.message = "❌ Failed to scrape" ∧
        e2.current_url = some current) ∧
    (w.fetch start_url = none →
      crawl_result w c start_url = [] ∧
      (crawl_website w c start_url).visited_urls = ∅) := by
  have hstep : ∀ (s : CrawlState) (current : String) (rest : List String),
      s.url_queue = current :: rest → current ∉ s.visited_urls →
      w.fetch current = none →
      (crawl_iter w c s).visited_urls = s.visited_urls ∧
      (crawl_iter w c s).scraped_content = s.scraped_content ∧
      (crawl_iter w c s).found_links = s.found_links ∧
      (crawl_iter w c s).url_queue = rest ∧
      (crawl_iter w c s).sleeps = s.sleeps ∧
      ∃ e1 e2 : ProgressEvent,
        (crawl_iter w c s).events = s.events ++ [e1, e2] ∧
        e2.message = "❌ Failed to scrape" ∧
        e2.current_url = some current := by
    intro s current rest hq hcv hf
    simp only [crawl_iter, hq]
    rw [if_neg hcv, hf]
    dsimp only
    refine ⟨rfl, rfl, rfl, rfl, rfl,
      { message := "🕷️ Scraping page...", current_url := some current,
        visited_count := s.visited_urls.card, queue_size := rest.length,
        total_links_found := s.found_links.card, links_on_current_page := 0,
        max_pages := c.max_pages },
      { message := "❌ Failed to scrape", current_url := some current,
        visited_count := s.visited_urls.card, queue_size := rest.length,
        total_links_found := s.found_links.card, links_on_current_page := 0,
        max_pages := c.max_pages },
      ?_, rfl, rfl⟩
    simp [update_progress]
  refine ⟨?_, ?_, hstep, ?_⟩
  · intro s hr u hfail
    have hinv := reach_inv w c start_url s hr
    have hnv : u ∉ s.visited_urls := by
      intro hv
      obtain ⟨html, hfu, -⟩ := hinv.visited_fetch u hv
      rw [hfail] at hfu
      exact Option.noConfusion hfu
    refine ⟨hnv, fun hk => hnv ?_⟩
    rw [hinv.visited_eq]
    exact List.mem_toFinset.mpr hk
  · intro s hr l hl
    have hinv := reach_inv w c start_url s hr
    rw [hinv.found_eq] at hl
    exact hinv.link_src l (List.mem_toFinset.mp hl)
  · intro hfail
    unfold crawl_result crawl_website
    by_cases hmp :
        ((init_state c start_url).visited_urls.card : Int) < c.max_pages
    · rw [crawl_loop_eq,
        if_pos ⟨by simp [init_state, update_progress], hmp⟩]
      obtain ⟨hv', hs', -, hq', -, -⟩ :=
        hstep (init_state c start_url) start_url [] rfl
          (Finset.not_mem_empty _) hfail
      rw [crawl_loop_eq, if_neg (by rw [hq']; exact fun h => h.1 rfl)]
      refine ⟨?_, ?_⟩
      · rw [update_progress_scraped, hs']
        rfl
      · rw [update_progress_visited, hv']
        rfl
    · rw [crawl_loop_eq, if_neg (fun h => hmp h.2)]
      exact ⟨rfl, rfl⟩

/-- Witness for C6 at a concrete session whose seed fetch fails. -/
theorem fetch_failure_recovery_witness :
    wFail.fetch seedU = none ∧
    crawl_result wFail (WebCrawler.init 10 2 true) seedU = [] ∧
    (crawl_website wFail (WebCrawler.init 10 2 true) seedU).visited_urls =
      ∅ :=
  ⟨rfl,
    ((fetch_failure_recovery wFail (WebCrawler.init 10 2 true) seedU).2.2.2
      rfl).1,
    ((fetch_failure_recovery wFail (WebCrawler.init 10 2 true) seedU).2.2.2
      rfl).2⟩

/-- C7 counterexample: `__init__` performs no validation.  A crawler with
`maxPages = 0 < 1` is constructed, stores the invalid budget unchanged, and
its crawl session runs and completes normally with an empty mapping — the
invalid configuration is not rejected at construction. -/
theorem config_not_rejected_cex :
    (WebCrawler.init 0 2 true).max_pages = 0 ∧
    crawl_result wOk (WebCrawler.init 0 2 true) "https://x.com/" = [] ∧
    (crawl_website wOk (WebCrawler.init 0 2 true)
      "https://x.com/").visited_urls = ∅ := by
  refine ⟨rfl, ?_, ?_⟩
  · unfold crawl_result crawl_website
    rw [crawl_loop_eq, if_neg (by decide)]
    rfl
  · unfold crawl_website
    rw [crawl_loop_eq, if_neg (by decide)]
    rfl

/-- C7 amended: an invalid configuration (`maxPages < 1`) is not rejected
when the session is constructed — the constructor stores it unchanged and
the session can run: its loop guard fails at once, so the crawl terminates
immediately with an empty mapping and zero visited count.  (With a progress
callback installed, the Python `update_progress` would divide by
`max_pages`, raising `ZeroDivisionError` mid-crawl for `maxPages = 0` —
still not a construction-time rejection.) -/
theorem config_not_rejected (mp d : Int) (sdo : Bool) (hmp : mp < 1)
    (w : World) (start_url : String) :
    (WebCrawler.init mp d sdo).max_pages = mp ∧
    crawl_result w (WebCrawler.init mp d sdo) start_url = [] ∧
    (crawl_website w (WebCrawler.init mp d sdo) start_url).visited_urls =
      ∅ := by
  have hguard : ¬((init_state (WebCrawler.init mp d sdo) start_url).url_queue
      ≠ [] ∧
      ((init_state (WebCrawler.init mp d sdo)
        start_url).visited_urls.card : Int) <
        (WebCrawler.init mp d sdo).max_pages) := by
    rintro ⟨-, hlt⟩
    have hz : (init_state (WebCrawler.init mp d sdo)
        start_url).visited_urls.card = 0 := rfl
    rw [hz] at hlt
    simp only [WebCrawler.init] at hlt
    omega
  refine ⟨rfl, ?_, ?_⟩
  · unfold crawl_result crawl_website
    rw [crawl_loop_eq, if_neg hguard]
    rfl
  · unfold crawl_website
    rw [crawl_loop_eq, if_neg hguard]
    rfl

/-- Witness for the amended C7 at a concrete invalid configuration. -/
theorem config_not_rejected_witness :
    (0 : Int) < 1 ∧
    ((WebCrawler.init 0 2 true).max_pages = 0 ∧
      crawl_result wFail (WebCrawler.init 0 2 true) "https://y.com/" = [] ∧
      (crawl_website wFail (WebCrawler.init 0 2 true)
        "https://y.com/").visited_urls = ∅) :=
  ⟨by decide, config_not_rejected 0 2 true (by decide) wFail "https://y.com/"⟩

/-- C10: a fetch that returns the empty string — a successful fetch of empty
content included — is treated by the driver exactly like a fetch failure:
the iteration equals the one where the fetch raised on that URL, the page is
not visited or recorded, no links of it are discovered, the queue just
advances, no pacing delay is recorded, and a "Failed to scrape" progress
event is emitted. -/
theorem empty_fetch_like_failure (w : World) (c : WebCrawler)
    (s : CrawlState) (current : String) (rest : List String)
    (hq : s.url_queue = current :: rest) (hcv : current ∉ s.visited_urls)
    (hf : w.fetch current = some "") :
    crawl_iter w c s =
      crawl_iter
        { w with fetch := fun u => if u = current then none else w.fetch u }
        c s ∧
    (crawl_iter w c s).visited_urls = s.visited_urls ∧
    (crawl_iter w c s).scraped_content = s.scraped_content ∧
    (crawl_iter w c s).found_links = s.found_links ∧
    (crawl_iter w c s).discovered_order = s.discovered_order ∧
    (crawl_iter w c s).url_queue = rest ∧
    (crawl_iter w c s).sleeps = s.sleeps ∧
    ∃ e1 e2 : ProgressEvent,
      (crawl_iter w c s).events = s.events ++ [e1, e2] ∧
      e2.message = "❌ Failed to scrape" ∧
      e2.current_url = some current := by
  have hW : crawl_iter w c s =
      update_progress c
        (update_progress c
          { s with url_queue := rest, popped := s.popped ++ [current] }
          "🕷️ Scraping page..." (some current) 0)
        "❌ Failed to scrape" (some current) 0 := by
    simp only [crawl_iter, hq]
    rw [if_neg hcv, hf]
    dsimp only
    rw [if_pos (by decide)]
  have hW' : crawl_iter
      { w with fetch := fun u => if u = current then none else w.fetch u }
      c s =
      update_progress c
        (update_progress c
          { s with url_queue := rest, popped := s.popped ++ [current] }
          "🕷️ Scraping page..." (some current) 0)
        "❌ Failed to scrape" (some current) 0 := by
    simp only [crawl_iter, hq]
    rw [if_neg hcv]
    rw [if_pos trivial]
  rw [hW, hW']
  refine ⟨rfl, rfl, rfl, rfl, rfl, rfl, rfl,
    { message := "🕷️ Scraping page...", current_url := some current,
      visited_count := s.visited_urls.card, queue_size := rest.length,
      total_links_found := s.found_links.card, links_on_current_page := 0,
      max_pages := c.max_pages },
    { message := "❌ Failed to scrape", current_url := some current,
      visited_count := s.visited_urls.card, queue_size := rest.length,
      total_links_found := s.found_links.card, links_on_current_page := 0,
      max_pages := c.max_pages },
    ?_, rfl, rfl⟩
  simp [update_progress]

/-- Witness for C10 at a concrete state whose head fetch returns "". -/
theorem empty_fetch_like_failure_witness :
    wEmpty.fetch seedU = some "" ∧
    (crawl_iter wEmpty cBfs (init_state cBfs seedU)).visited_urls =
      (init_state cBfs seedU).visited_urls ∧
    (crawl_iter wEmpty cBfs (init_state cBfs seedU)).sleeps =
      (init_state cBfs seedU).sleeps ∧
    (crawl_iter wEmpty cBfs (init_state cBfs seedU)).url_queue = [] :=
  ⟨rfl,
    (empty_fetch_like_failure wEmpty cBfs (init_state cBfs seedU) seedU []
      rfl (Finset.not_mem_empty _) rfl).2.1,
    (empty_fetch_like_failure wEmpty cBfs (init_state cBfs seedU) seedU []
      rfl (Finset.not_mem_empty _) rfl).2.2.2.2.2.2.1,
    (empty_fetch_like_failure wEmpty cBfs (init_state cBfs seedU) seedU []
      rfl (Finset.not_mem_empty _) rfl).2.2.2.2.2.1⟩

end Webscraper
